import Mathlib

/-
Verification of the bond-trading back-office pipeline
(MTH9815 final project: pricing, market data, algo execution,
execution, and inquiry services).

The definitions below are a shallow embedding of the C++ sources:
  - marketdataservice.hpp (Order, OrderBook, BidOffer, MarketDataService,
    MarketDataConnector, and the functions.hpp section: GetBond, ConvertPrice)
  - pricingservice.hpp (Price, PricingService, PricingConnector, and the
    executionservice.hpp section: ExecutionOrder, ExecutionService,
    AlgoExecution, AlgoExecutionService)
  - inquiryservice.hpp (Inquiry, InquiryService, InquiryConnector)

C++ doubles are modelled as rationals (all prices handled by the pipeline
are dyadic fractions with denominator dividing 256, which doubles represent
exactly), C++ long as Int, and std::map stores as association lists where a
new binding is prepended and lookup takes the first match (this gives the
same observable lookup semantics as std::map assignment, which overwrites).
Listener lists hold listener identifiers (naturals); a ProcessAdd dispatch
is recorded as a (listener, data) pair in an event list.
-/

namespace MTH9815

/-- Pricing side of a market data order (marketdataservice.hpp: enum PricingSide). -/
inductive PricingSide where
  | BID
  | OFFER
deriving DecidableEq, Repr

/-- Trading side of a trade or inquiry (tradebookingservice.hpp: enum Side;
the header itself is not part of the sources, but the enum's two constants
BUY and SELL appear throughout inquiryservice.hpp). -/
inductive Side where
  | BUY
  | SELL
deriving DecidableEq, Repr

/-- Bond product. products.hpp is not among the sources; the field list is
read off the constructor calls in GetBond (cusip id, ticker, coupon,
maturity date, the identifier type CUSIP being constant). -/
structure Bond where
  productId : String
  ticker : String
  coupon : ℚ
  maturity : String
deriving DecidableEq, Repr

/-- Modelled from the spec: the default-constructed Bond. products.hpp is
missing from the sources; per the spec's error-handling section, for an
unknown product identifier "the reference lookup yields a default bond with
empty fields". -/
def Bond.defaultBond : Bond := ⟨"", "", 0, ""⟩

/-- GetBond from the functions.hpp section of marketdataservice.hpp:
a default bond overwritten by a chain of six equality tests. -/
def GetBond (cusip : String) : Bond :=
  let b := Bond.defaultBond
  let b := if cusip = "9128283H1" then Bond.mk ("9128283H1") ("US2Y") 0.01750 ("2019/11/30") else b
  let b := if cusip = "9128283L2" then Bond.mk ("9128283L2") ("US3Y") 0.01875 ("2020/12/15") else b
  let b := if cusip = "912828M80" then Bond.mk ("912828M80") ("US5Y") 0.02000 ("2022/11/30") else b
  let b := if cusip = "9128283J7" then Bond.mk ("9128283J7") ("US7Y") 0.02125 ("2024/11/30") else b
  let b := if cusip = "9128283F5" then Bond.mk ("9128283F5") ("US10Y") 0.02250 ("2027/12/15") else b
  let b := if cusip = "912810RZ3" then Bond.mk ("912810RZ3") ("US30Y") 0.02750 ("2047/12/15") else b
  b

/-- The six CUSIPs of the fixed reference table. -/
def knownCusips : List String :=
  ["9128283H1", "9128283L2", "912828M80", "9128283J7", "9128283F5", "912810RZ3"]

/-- Association-list lookup modelling std::map find semantics: the first
binding for the key wins (new bindings are prepended on assignment). -/
def mapLookup {V : Type} (m : List (String × V)) (k : String) : Option V :=
  (m.find? (fun p => p.1 == k)).map (fun p => p.2)

theorem mapLookup_cons {V : Type} (k : String) (v : V) (m : List (String × V)) (k2 : String) :
    mapLookup ((k, v) :: m) k2 = if k = k2 then some v else mapLookup m k2 := by
  simp only [mapLookup, List.find?]
  by_cases h : k = k2
  · simp [h]
  · have hb : (k == k2) = false := by
      simp [h]
    simp [hb, h]

/-- A market data order (marketdataservice.hpp: class Order). -/
structure Order where
  price : ℚ
  quantity : ℤ
  side : PricingSide
deriving DecidableEq, Repr

/-- Default-constructed Order. The C++ default constructor leaves the
members indeterminate; we model them zero-initialised (the algorithms
below never read a default Order unless a stack is empty). -/
def Order.defaultOrder : Order := ⟨0, 0, PricingSide.BID⟩

/-- Bid and offer pair (marketdataservice.hpp: class BidOffer). -/
structure BidOffer where
  bidOrder : Order
  offerOrder : Order
deriving DecidableEq, Repr

/-- Order book (marketdataservice.hpp: class OrderBook). -/
structure OrderBook where
  product : Bond
  bidStack : List Order
  offerStack : List Order
deriving DecidableEq, Repr

/-- OrderBook::GetBidOffer: linear scan keeping the highest-priced bid
(running best initialised to INT_MIN) and the lowest-priced offer
(running best initialised to INT_MAX). -/
def OrderBook.GetBidOffer (b : OrderBook) : BidOffer :=
  let bid := b.bidStack.foldl
    (fun s o => if o.price > s.1 then (o.price, o) else s)
    ((-2147483648 : ℚ), Order.defaultOrder)
  let off := b.offerStack.foldl
    (fun s o => if o.price < s.1 then (o.price, o) else s)
    ((2147483647 : ℚ), Order.defaultOrder)
  ⟨bid.2, off.2⟩

/-- A price with mid and bid/offer spread (pricingservice.hpp: class Price). -/
structure Price where
  product : Bond
  mid : ℚ
  bidOfferSpread : ℚ
deriving DecidableEq, Repr

/-- State of PricingService: the keyed store and the registered listeners
(pricingservice.hpp: fields prices, listeners). -/
structure PricingServiceState where
  prices : List (String × Price)
  listeners : List ℕ
deriving DecidableEq, Repr

/-- PricingService::OnMessage: store under the product id of the incoming
price, then call ProcessAdd on every listener in registration order. -/
def PricingService.OnMessage (s : PricingServiceState) (data : Price) :
    PricingServiceState × List (ℕ × Price) :=
  ({ s with prices := (data.product.productId, data) :: s.prices },
   s.listeners.map (fun l => (l, data)))

/-- One parsed line of the prices file: productId, bid, offer
(pricingservice.hpp: PricingConnector::Subscribe reads cells 0..2). -/
structure PriceRow where
  productId : String
  bid : ℚ
  offer : ℚ
deriving DecidableEq, Repr

/-- The loop body of PricingConnector::Subscribe for one row: mid and
spread are computed from bid and offer, the product is looked up with
GetBond, and the price is pushed into the service via OnMessage. -/
def PricingConnector.processRow (s : PricingServiceState) (row : PriceRow) :
    PricingServiceState × List (ℕ × Price) :=
  let mid := (row.bid + row.offer) / 2
  let spread := row.offer - row.bid
  let product := GetBond row.productId
  let price : Price := ⟨product, mid, spread⟩
  PricingService.OnMessage s price

/-- Order type of an execution order (executionservice.hpp section of
pricingservice.hpp: enum OrderType). -/
inductive OrderType where
  | FOK
  | IOC
  | MARKET
  | LIMIT
  | STOP
deriving DecidableEq, Repr

/-- An execution order (executionservice.hpp section: class ExecutionOrder). -/
structure ExecutionOrder where
  product : Bond
  side : PricingSide
  orderId : String
  orderType : OrderType
  price : ℚ
  visibleQuantity : ℤ
  hiddenQuantity : ℤ
  parentOrderId : String
  isChildOrder : Bool
deriving DecidableEq, Repr

/-- State of ExecutionService (fields executionOrders, listeners). -/
structure ExecutionServiceState where
  executionOrders : List (String × ExecutionOrder)
  listeners : List ℕ
deriving DecidableEq, Repr

/-- ExecutionService::OnMessage: stores the order under its product id and
invokes no listener. -/
def ExecutionService.OnMessage (s : ExecutionServiceState) (data : ExecutionOrder) :
    ExecutionServiceState × List (ℕ × ExecutionOrder) :=
  ({ s with executionOrders := (data.product.productId, data) :: s.executionOrders }, [])

/-- ExecutionService::ExecuteOrder: stores the order under its product id,
then calls ProcessAdd on every listener in registration order. -/
def ExecutionService.ExecuteOrder (s : ExecutionServiceState) (order : ExecutionOrder) :
    ExecutionServiceState × List (ℕ × ExecutionOrder) :=
  ({ s with executionOrders := (order.product.productId, order) :: s.executionOrders },
   s.listeners.map (fun l => (l, order)))

/-- An algo execution wrapping an execution order (executionservice.hpp
section: class AlgoExecution; the C++ holds the order through a pointer,
modelled by value). -/
structure AlgoExecution where
  executionOrder : ExecutionOrder
deriving DecidableEq, Repr

/-- State of AlgoExecutionService (fields algoExecutions, listeners,
spread, count). The constructor sets spread = 1/128 and count = 0. -/
structure AlgoExecutionServiceState where
  algoExecutions : List (String × AlgoExecution)
  listeners : List ℕ
  spread : ℚ
  count : ℕ
deriving DecidableEq, Repr

/-- AlgoExecutionService constructor: empty store, given listeners,
spread threshold 1/128, counter 0. -/
def AlgoExecutionService.init (listeners : List ℕ) : AlgoExecutionServiceState :=
  ⟨[], listeners, 1 / 128, 0⟩

/-- AlgoExecutionService::AlgoExecuteOrder. The order id is the result of
the GenerateId() call, passed here as an argument (GenerateId draws from a
millisecond-seeded RNG, outside the functional model). The top of book
comes from OrderBook::GetBidOffer; if the offer price exceeds the bid
price by more than the spread threshold nothing happens, otherwise the
side alternates on the counter (even: bid, odd: offer), the counter is
incremented, and the new algo execution is stored and dispatched. -/
def AlgoExecutionService.AlgoExecuteOrder (s : AlgoExecutionServiceState)
    (orderId : String) (book : OrderBook) :
    AlgoExecutionServiceState × List (ℕ × AlgoExecution) :=
  let product := book.product
  let productId := product.productId
  let bo := book.GetBidOffer
  let bidPrice := bo.bidOrder.price
  let bidQuantity := bo.bidOrder.quantity
  let offerPrice := bo.offerOrder.price
  let offerQuantity := bo.offerOrder.quantity
  if offerPrice - bidPrice ≤ s.spread then
    let sd := if s.count % 2 = 0 then PricingSide.BID else PricingSide.OFFER
    let px := if s.count % 2 = 0 then bidPrice else offerPrice
    let qty := if s.count % 2 = 0 then bidQuantity else offerQuantity
    let algoExecution : AlgoExecution :=
      ⟨⟨product, sd, orderId, OrderType.MARKET, px, qty, 0, "", false⟩⟩
    ({ s with algoExecutions := (productId, algoExecution) :: s.algoExecutions,
              count := s.count + 1 },
     s.listeners.map (fun l => (l, algoExecution)))
  else
    (s, [])

/-- One update of the aggregation hash table: unordered_map operator[]
followed by +=. If the price is already a key its quantity grows,
otherwise a fresh entry is appended. -/
def tableAdd (t : List (ℚ × ℤ)) (p : ℚ) (q : ℤ) : List (ℚ × ℤ) :=
  match t with
  | [] => [(p, q)]
  | e :: rest => if e.1 = p then (e.1, e.2 + q) :: rest else e :: tableAdd rest p q

/-- The aggregation hash table built from one stack: the loop
`for (auto& b : stack) table[b.GetPrice()] += b.GetQuantity();`.
The C++ unordered_map iterates in an unspecified order; the model fixes
first-insertion order, which is one of the admissible orders. -/
def buildTable (orders : List Order) : List (ℚ × ℤ) :=
  orders.foldl (fun t o => tableAdd t o.price o.quantity) []

/-- MarketDataService::AggregateDepth, as a pure function of the stored
order book: each side's stack is folded into a price-keyed table and read
back out as one Order per distinct price, tagged BID resp. OFFER. -/
def MarketDataService.AggregateDepth (book : OrderBook) : OrderBook :=
  let bidStackTo := (buildTable book.bidStack).map (fun e => Order.mk e.1 e.2 PricingSide.BID)
  let offerStackTo := (buildTable book.offerStack).map (fun e => Order.mk e.1 e.2 PricingSide.OFFER)
  ⟨book.product, bidStackTo, offerStackTo⟩

/-- One parsed line of the market data file: productId, fractional price
string, quantity, side string (marketdataservice.hpp:
MarketDataConnector::Subscribe reads cells 0..3). -/
structure MarketDataRow where
  productId : String
  priceStr : String
  quantity : ℤ
  sideStr : String
deriving DecidableEq, Repr

/-- Accumulator of MarketDataConnector::Subscribe: the row counter, the
growing bid and offer stacks, and the order books delivered so far to
MarketDataService::OnMessage. -/
structure MDSubscribeState where
  count : ℕ
  bidStack : List Order
  offerStack : List Order
  books : List OrderBook
deriving DecidableEq, Repr

/-- Value of a decimal digit character, as in the positional evaluation
performed by std::stod on a digit string. -/
def charToDigitVal (c : Char) : ℕ := c.toNat - 48

/-- std::stod restricted to the nonnegative integer digit strings that the
price converter produces: left-to-right positional evaluation. -/
def stodNat (cs : List Char) : ℕ :=
  cs.foldl (fun a c => a * 10 + charToDigitVal c) 0

/-- Splitter state of the fraction-to-decimal ConvertPrice overload: the
branch counter and the three collected substrings (whole points, 32nds,
eighths-of-a-32nd). -/
structure PriceSplit where
  count : ℕ
  s100 : List Char
  s32 : List Char
  s8 : List Char
deriving DecidableEq, Repr

/-- One character step of the splitting loop in
`double ConvertPrice(string)`: a dash bumps the counter; at counter 0 the
character joins the whole-points string; at counter 1 or 2 it joins the
32nds string and bumps the counter; at counter 3 it joins the eighths
string with a plus sign read as the digit 4. -/
def splitStep (st : PriceSplit) (c : Char) : PriceSplit :=
  if c = '-' then { st with count := st.count + 1 }
  else if st.count = 0 then { st with s100 := st.s100 ++ [c] }
  else if st.count = 1 ∨ st.count = 2 then
    { st with s32 := st.s32 ++ [c], count := st.count + 1 }
  else if st.count = 3 then
    { st with s8 := st.s8 ++ [if c = '+' then '4' else c] }
  else st

/-- `double ConvertPrice(string)`: split the AAA-BBC form and return
AAA + BB/32 + C/256. -/
def ConvertPriceFromChars (cs : List Char) : ℚ :=
  let st := cs.foldl splitStep ⟨0, [], [], []⟩
  (stodNat st.s100 : ℚ) + (stodNat st.s32 : ℚ) * 1 / 32 + (stodNat st.s8 : ℚ) * 1 / 256

/-- String wrapper of the fraction-to-decimal conversion. -/
def ConvertPriceFromString (s : String) : ℚ :=
  ConvertPriceFromChars s.data

/-- std::to_string on a nonnegative integer: decimal digit characters,
most significant first. -/
def natToChars (n : ℕ) : List Char :=
  if n = 0 then ['0'] else ((Nat.digits 10 n).map Nat.digitChar).reverse

/-- std::to_string on an int: a minus sign before the digits when the
argument is negative. -/
def intToChars (i : ℤ) : List Char :=
  if i < 0 then '-' :: natToChars (-i).toNat else natToChars i.toNat

/-- `string ConvertPrice(double)`: take the whole points by floor, the
remaining 256ths by floor, split those into 32nds and eighths (integer
division and C-style remainder), zero-pad the 32nds to two digits, print
the eighth digit 4 as a plus sign, and join as AAA-BBC. -/
def ConvertPriceToChars (p : ℚ) : List Char :=
  let i100 : ℤ := ⌊p⌋
  let i256 : ℤ := ⌊(p - (i100 : ℚ)) * 256⌋
  let i32 : ℤ := ⌊(i256 : ℚ) / 8⌋
  let i8 : ℤ := Int.tmod i256 8
  let s100 := intToChars i100
  let s32 := intToChars i32
  let s8 := intToChars i8
  let s32 := if i32 < 10 then '0' :: s32 else s32
  let s8 := if i8 = 4 then ['+'] else s8
  s100 ++ ['-'] ++ s32 ++ s8

/-- One loop iteration of MarketDataConnector::Subscribe (bookDepth is the
service's book depth, so the group size _thread is 2 * bookDepth): parse
the row, push the order on the matching stack, bump the counter; when the
counter reaches the group size, build an OrderBook from the accumulated
stacks with the product of the current row and deliver it to
MarketDataService::OnMessage, then reset counter and stacks. -/
def MarketDataConnector.subscribeStep (bookDepth : ℕ) (st : MDSubscribeState)
    (row : MarketDataRow) : MDSubscribeState :=
  let _thread := bookDepth * 2
  let price := ConvertPriceFromString row.priceStr
  let sd := if row.sideStr = "BID" then PricingSide.BID else PricingSide.OFFER
  let order : Order := ⟨price, row.quantity, sd⟩
  let st :=
    match sd with
    | PricingSide.BID => { st with bidStack := st.bidStack ++ [order] }
    | PricingSide.OFFER => { st with offerStack := st.offerStack ++ [order] }
  let st := { st with count := st.count + 1 }
  if st.count = _thread then
    let product := GetBond row.productId
    let book : OrderBook := ⟨product, st.bidStack, st.offerStack⟩
    { count := 0, bidStack := [], offerStack := [], books := st.books ++ [book] }
  else st

/-- MarketDataConnector::Subscribe over a whole file of parsed rows,
starting from an empty accumulator. -/
def MarketDataConnector.Subscribe (bookDepth : ℕ) (rows : List MarketDataRow) :
    MDSubscribeState :=
  rows.foldl (MarketDataConnector.subscribeStep bookDepth) ⟨0, [], [], []⟩

/-- The book depth set by the MarketDataService constructor. -/
def MarketDataService.bookDepth : ℕ := 5

/-- Customer inquiry state (inquiryservice.hpp: enum InquiryState). -/
inductive InquiryState where
  | RECEIVED
  | QUOTED
  | DONE
  | REJECTED
  | CUSTOMER_REJECTED
deriving DecidableEq, Repr

/-- A customer inquiry (inquiryservice.hpp: class Inquiry). -/
structure Inquiry where
  inquiryId : String
  product : Bond
  side : Side
  quantity : ℤ
  price : ℚ
  state : InquiryState
deriving DecidableEq, Repr

/-- Modelled from the spec: Inquiry::SetPrice. The source calls SetPrice
in InquiryService::SendQuote but the Inquiry header defines no such
member (the spec notes this and requires the operation "update stored
price"). -/
def Inquiry.SetPrice (i : Inquiry) (p : ℚ) : Inquiry := { i with price := p }

/-- Default-constructed Inquiry (what map operator[] creates for a missing
key; string members empty, the rest modelled zero-initialised). -/
def Inquiry.defaultInquiry : Inquiry :=
  ⟨"", Bond.defaultBond, Side.BUY, 0, 0, InquiryState.RECEIVED⟩

/-- State of InquiryService (fields inquiries, listeners). -/
structure InquiryServiceState where
  inquiries : List (String × Inquiry)
  listeners : List ℕ
deriving DecidableEq, Repr

/-- Termination measure for the OnMessage / Publish round-trip: the one
recursive step turns RECEIVED into QUOTED. -/
def InquiryState.rank : InquiryState → ℕ
  | InquiryState.RECEIVED => 1
  | _ => 0

/-- InquiryService::OnMessage. On RECEIVED: store, then hand the inquiry
to the connector, whose Publish flips the state to QUOTED and re-invokes
OnMessage through Subscribe (that round-trip is inlined here as the
recursive call; InquiryConnector.Publish below is proved to coincide with
it). On QUOTED: set DONE, store, dispatch ProcessAdd to every listener.
On the three terminal states: no-op. -/
def InquiryService.OnMessage (s : InquiryServiceState) (data : Inquiry) :
    InquiryServiceState × List (ℕ × Inquiry) :=
  match _hst : data.state with
  | InquiryState.RECEIVED =>
      let s1 := { s with inquiries := (data.inquiryId, data) :: s.inquiries }
      InquiryService.OnMessage s1 { data with state := InquiryState.QUOTED }
  | InquiryState.QUOTED =>
      let d := { data with state := InquiryState.DONE }
      let s1 := { s with inquiries := (d.inquiryId, d) :: s.inquiries }
      (s1, s1.listeners.map (fun l => (l, d)))
  | InquiryState.DONE => (s, [])
  | InquiryState.REJECTED => (s, [])
  | InquiryState.CUSTOMER_REJECTED => (s, [])
termination_by data.state.rank
decreasing_by
  simp [_hst, InquiryState.rank]

/-- InquiryConnector::Subscribe(Inquiry&): forward to the service. -/
def InquiryConnector.SubscribeOne (s : InquiryServiceState) (data : Inquiry) :
    InquiryServiceState × List (ℕ × Inquiry) :=
  InquiryService.OnMessage s data

/-- InquiryConnector::Publish: when the inquiry is RECEIVED, set QUOTED
and feed it back through Subscribe; otherwise do nothing. -/
def InquiryConnector.Publish (s : InquiryServiceState) (data : Inquiry) :
    InquiryServiceState × List (ℕ × Inquiry) :=
  if data.state = InquiryState.RECEIVED then
    InquiryConnector.SubscribeOne s { data with state := InquiryState.QUOTED }
  else
    (s, [])

/-- Fidelity of the inlining in OnMessage: on a RECEIVED inquiry,
OnMessage is exactly store-then-Publish, as in the source. -/
theorem onMessage_received_eq_publish (s : InquiryServiceState) (data : Inquiry)
    (h : data.state = InquiryState.RECEIVED) :
    InquiryService.OnMessage s data =
      InquiryConnector.Publish
        { s with inquiries := (data.inquiryId, data) :: s.inquiries } data := by
  rw [InquiryService.OnMessage]
  split
  · rw [InquiryConnector.Publish, if_pos h, InquiryConnector.SubscribeOne]
  all_goals simp_all

/-- InquiryService::SendQuote: read the stored inquiry (map operator[]
semantics), update its price in place through SetPrice, and dispatch
ProcessAdd with the updated stored inquiry to every listener. -/
def InquiryService.SendQuote (s : InquiryServiceState) (inquiryId : String) (price : ℚ) :
    InquiryServiceState × List (ℕ × Inquiry) :=
  let inq := (mapLookup s.inquiries inquiryId).getD Inquiry.defaultInquiry
  let inq2 := inq.SetPrice price
  ({ s with inquiries := (inquiryId, inq2) :: s.inquiries },
   s.listeners.map (fun l => (l, inq2)))

/-
Claim theorems.
-/

/-- Claim C8: ExecutionService.OnMessage stores the execution order under
its product id and invokes no listener callback, while ExecuteOrder stores
the order and calls ProcessAdd on every registered listener; listener
dispatch happens only through ExecuteOrder. -/
theorem executionService_dispatch_only_through_executeOrder
    (s : ExecutionServiceState) (data : ExecutionOrder) :
    (ExecutionService.OnMessage s data).2 = [] ∧
    mapLookup (ExecutionService.OnMessage s data).1.executionOrders
      data.product.productId = some data ∧
    (ExecutionService.ExecuteOrder s data).2 = s.listeners.map (fun l => (l, data)) ∧
    mapLookup (ExecutionService.ExecuteOrder s data).1.executionOrders
      data.product.productId = some data := by
  refine ⟨rfl, ?_, rfl, ?_⟩ <;>
    simp [ExecutionService.OnMessage, ExecutionService.ExecuteOrder, mapLookup_cons]

/-- Claim C9: for a product identifier outside the six known CUSIPs,
GetBond returns the default-constructed bond with empty fields, and a
price row with such an identifier is still ingested: every registered
listener receives the resulting price built on the default bond. -/
theorem getBond_unknown_yields_default (cusip : String) (h : cusip ∉ knownCusips) :
    GetBond cusip = Bond.defaultBond ∧
    ∀ (s : PricingServiceState) (bid offer : ℚ),
      (PricingConnector.processRow s ⟨cusip, bid, offer⟩).2 =
        s.listeners.map (fun l => (l, ⟨Bond.defaultBond, (bid + offer) / 2, offer - bid⟩)) := by
  simp only [knownCusips, List.mem_cons, List.mem_singleton, not_or] at h
  obtain ⟨h1, h2, h3, h4, h5, h6⟩ := h
  have hg : GetBond cusip = Bond.defaultBond := by
    simp [GetBond, h1, h2, h3, h4, h5, h6]
  refine ⟨hg, fun s bid offer => ?_⟩
  simp [PricingConnector.processRow, PricingService.OnMessage, hg]

/-- Witness for claim C9 at the concrete unknown identifier XXX. -/
theorem getBond_unknown_yields_default_witness :
    GetBond ("XXX") = Bond.defaultBond :=
  (getBond_unknown_yields_default ("XXX") (by decide)).1

/-- Counterexample to claim C6 as stated: for the input row
(productId, bid, offer) = (XXX, 99, 100) with an unknown product
identifier, the price is not stored under the row's productId XXX — the
lookup under XXX still misses — because OnMessage keys the store by the
product id of the bond returned by GetBond, which is empty here. -/
theorem pricing_row_not_stored_under_unknown_productId :
    mapLookup (PricingConnector.processRow ⟨[], [0]⟩ ⟨"XXX", 99, 100⟩).1.prices ("XXX") = none ∧
    mapLookup (PricingConnector.processRow ⟨[], [0]⟩ ⟨"XXX", 99, 100⟩).1.prices ("") =
      some ⟨Bond.defaultBond, 199 / 2, 1⟩ := by
  refine ⟨by decide, ?_⟩
  simp only [PricingConnector.processRow, PricingService.OnMessage, GetBond, Bond.defaultBond]
  simp [mapLookup_cons]
  norm_num

/-- Claim C6 (amended): processing a price row computes
mid = (bid + offer)/2 and spread = offer − bid, stores the price under the
product id of the bond looked up from the row's productId — which equals
the row's productId whenever it is one of the six known CUSIPs — with
last-write-wins lookup semantics, and dispatches ProcessAdd with the new
price to every registered listener in order. -/
theorem pricing_row_mid_spread_store_dispatch (s : PricingServiceState) (row : PriceRow) :
    PricingConnector.processRow s row =
      ({ s with prices :=
          ((GetBond row.productId).productId,
            ⟨GetBond row.productId, (row.bid + row.offer) / 2, row.offer - row.bid⟩) :: s.prices },
        s.listeners.map
          (fun l => (l, ⟨GetBond row.productId, (row.bid + row.offer) / 2, row.offer - row.bid⟩))) ∧
    mapLookup (PricingConnector.processRow s row).1.prices (GetBond row.productId).productId =
      some ⟨GetBond row.productId, (row.bid + row.offer) / 2, row.offer - row.bid⟩ ∧
    (row.productId ∈ knownCusips → (GetBond row.productId).productId = row.productId) := by
  refine ⟨rfl, ?_, ?_⟩
  · simp [PricingConnector.processRow, PricingService.OnMessage, mapLookup_cons]
  · intro hm
    simp only [knownCusips, List.mem_cons, List.not_mem_nil, or_false] at hm
    rcases hm with h | h | h | h | h | h <;> rw [h] <;> decide

/-- Witness for the amended claim C6 at a known CUSIP: the stored key
equals the row's productId and the stored price has the computed mid. -/
theorem pricing_row_mid_spread_store_dispatch_witness :
    (GetBond ("9128283H1")).productId = "9128283H1" :=
  (pricing_row_mid_spread_store_dispatch ⟨[], [0]⟩ ⟨"9128283H1", 99, 100⟩).2.2 (by decide)

/-- Books and counter of one subscribe step: when the counter reaches the
group size a book is emitted and the counter resets, otherwise the counter
advances and no book is emitted. -/
theorem subscribeStep_books_count (D : ℕ) (st : MDSubscribeState) (row : MarketDataRow) :
    (MarketDataConnector.subscribeStep D st row).books.length =
      (if st.count + 1 = D * 2 then st.books.length + 1 else st.books.length) ∧
    (MarketDataConnector.subscribeStep D st row).count =
      (if st.count + 1 = D * 2 then 0 else st.count + 1) := by
  unfold MarketDataConnector.subscribeStep
  split <;> split <;> simp_all

/-- Book count of the subscribe fold from an arbitrary accumulator whose
counter is below the group size. -/
theorem subscribe_fold_books (D : ℕ) (hD : 0 < D) (rows : List MarketDataRow)
    (st : MDSubscribeState) (hc : st.count < D * 2) :
    ((rows.foldl (MarketDataConnector.subscribeStep D) st).books).length =
      st.books.length + (st.count + rows.length) / (D * 2) := by
  induction rows generalizing st with
  | nil =>
      simp [Nat.div_eq_of_lt hc]
  | cons row rest ih =>
      obtain ⟨hb, hn⟩ := subscribeStep_books_count D st row
      simp only [List.foldl_cons, List.length_cons]
      by_cases hfull : st.count + 1 = D * 2
      · rw [if_pos hfull] at hb hn
        rw [ih _ (by omega)]
        rw [hb, hn]
        have h2 : st.count + (rest.length + 1) = rest.length + D * 2 := by omega
        rw [h2, Nat.add_div_right _ (by omega)]
        simp only [Nat.zero_add]
        omega
      · rw [if_neg hfull] at hb hn
        rw [ih _ (by omega)]
        rw [hb, hn]
        have h2 : st.count + 1 + rest.length = st.count + (rest.length + 1) := by omega
        rw [h2]

/-- Claim C10: MarketDataConnector.Subscribe delivers exactly one order
book to MarketDataService.OnMessage per full group of 2·bookDepth
consecutive rows (10 rows at the service's depth 5), and a trailing group
of fewer than 2·bookDepth rows produces no order book. -/
theorem marketdata_one_book_per_full_group (D : ℕ) (rows : List MarketDataRow) :
    (MarketDataConnector.Subscribe D rows).books.length = rows.length / (D * 2) ∧
    (MarketDataConnector.Subscribe MarketDataService.bookDepth rows).books.length =
      rows.length / 10 := by
  have hgen : ∀ (E : ℕ), (MarketDataConnector.Subscribe E rows).books.length =
      rows.length / (E * 2) := by
    intro E
    rcases Nat.eq_zero_or_pos E with hE | hE
    · subst hE
      have hz : ∀ (rs : List MarketDataRow) (st : MDSubscribeState),
          ((rs.foldl (MarketDataConnector.subscribeStep 0) st).books).length =
            st.books.length := by
        intro rs
        induction rs with
        | nil => intro st; rfl
        | cons row rest ih =>
            intro st
            obtain ⟨hb, hn⟩ := subscribeStep_books_count 0 st row
            simp only [Nat.mul_zero, Nat.zero_mul] at hb hn
            simp only [List.foldl_cons]
            rw [ih, hb]
            simp
      simp [MarketDataConnector.Subscribe, hz rows ⟨0, [], [], []⟩]
    · rw [MarketDataConnector.Subscribe,
        subscribe_fold_books E hE rows _ (by show 0 < E * 2; omega)]
      simp
  exact ⟨hgen D, hgen MarketDataService.bookDepth⟩

/-- The algo execution that a firing cross produces in a state with
counter c: MARKET order, the given fresh order id, crossing at the bid
with the bid quantity when c is even and at the offer with the offer
quantity when c is odd, hidden quantity 0, no parent, not a child. -/
def crossAlgoExecution (c : ℕ) (oid : String) (book : OrderBook) : AlgoExecution :=
  ⟨⟨book.product,
    if c % 2 = 0 then PricingSide.BID else PricingSide.OFFER,
    oid, OrderType.MARKET,
    if c % 2 = 0 then book.GetBidOffer.bidOrder.price else book.GetBidOffer.offerOrder.price,
    if c % 2 = 0 then book.GetBidOffer.bidOrder.quantity else book.GetBidOffer.offerOrder.quantity,
    0, "", false⟩⟩

/-- Claim C1: in any AlgoExecutionService state with the constructor's
spread threshold 1/128, AlgoExecuteOrder fires a cross — stores a new
AlgoExecution under the book's product id and dispatches it to every
listener, incrementing the counter — if and only if the best offer price
minus the best bid price is at most 1/128; the fired cross is at the bid
with the bid quantity on an even counter and at the offer with the offer
quantity on an odd counter, and on a non-firing update the state is
unchanged and nothing is dispatched. -/
theorem algoExecution_cross_iff_tight_spread (s : AlgoExecutionServiceState)
    (oid : String) (book : OrderBook) (hspread : s.spread = 1 / 128) :
    ((book.GetBidOffer.offerOrder.price - book.GetBidOffer.bidOrder.price ≤ 1 / 128) →
      AlgoExecutionService.AlgoExecuteOrder s oid book =
        ({ s with
            algoExecutions :=
              (book.product.productId, crossAlgoExecution s.count oid book) :: s.algoExecutions,
            count := s.count + 1 },
         s.listeners.map (fun l => (l, crossAlgoExecution s.count oid book)))) ∧
    (¬ (book.GetBidOffer.offerOrder.price - book.GetBidOffer.bidOrder.price ≤ 1 / 128) →
      AlgoExecutionService.AlgoExecuteOrder s oid book = (s, [])) := by
  constructor
  · intro hf
    rw [AlgoExecutionService.AlgoExecuteOrder]
    rw [hspread, if_pos hf]
    rfl
  · intro hf
    rw [AlgoExecutionService.AlgoExecuteOrder]
    rw [hspread, if_neg hf]

/-- Sample two-level order book with a 1/256 spread, used by witnesses. -/
def sampleBook : OrderBook :=
  ⟨GetBond ("9128283H1"),
   [⟨100, 1000000, PricingSide.BID⟩, ⟨100 - 1 / 256, 2000000, PricingSide.BID⟩],
   [⟨100 + 1 / 256, 3000000, PricingSide.OFFER⟩, ⟨100 + 2 / 256, 4000000, PricingSide.OFFER⟩]⟩

/-- Witness for claim C1: from the freshly constructed service (counter 0,
threshold 1/128) and a book whose top-of-book spread is 1/256, the update
fires, the counter becomes 1, and the single listener receives the cross
at the bid. -/
theorem algoExecution_cross_iff_tight_spread_witness :
    AlgoExecutionService.AlgoExecuteOrder (AlgoExecutionService.init [0]) ("OID") sampleBook =
      ({ algoExecutions :=
           [(sampleBook.product.productId, crossAlgoExecution 0 ("OID") sampleBook)],
         listeners := [0], spread := 1 / 128, count := 1 },
       [(0, crossAlgoExecution 0 ("OID") sampleBook)]) :=
  (algoExecution_cross_iff_tight_spread (AlgoExecutionService.init [0]) ("OID") sampleBook
    rfl).1 (by
      show (sampleBook.GetBidOffer).offerOrder.price - (sampleBook.GetBidOffer).bidOrder.price
        ≤ 1 / 128
      norm_num [sampleBook, OrderBook.GetBidOffer])

/-- Unfolding of OnMessage on a QUOTED inquiry: set DONE, store, dispatch
to every listener. -/
theorem onMessage_quoted (s : InquiryServiceState) (data : Inquiry)
    (h : data.state = InquiryState.QUOTED) :
    InquiryService.OnMessage s data =
      ({ s with inquiries :=
          (data.inquiryId, { data with state := InquiryState.DONE }) :: s.inquiries },
       s.listeners.map (fun l => (l, { data with state := InquiryState.DONE }))) := by
  rw [InquiryService.OnMessage]
  split <;> simp_all

/-- Unfolding of OnMessage on a RECEIVED inquiry: store, then re-enter
with the QUOTED copy (the Publish round-trip). -/
theorem onMessage_received (s : InquiryServiceState) (data : Inquiry)
    (h : data.state = InquiryState.RECEIVED) :
    InquiryService.OnMessage s data =
      InquiryService.OnMessage
        { s with inquiries := (data.inquiryId, data) :: s.inquiries }
        { data with state := InquiryState.QUOTED } := by
  rw [InquiryService.OnMessage]
  split <;> simp_all

/-- Claim C3: ingesting a RECEIVED inquiry leaves it stored in state DONE,
and the dispatch list is exactly one ProcessAdd per registered listener
with the DONE inquiry — in particular, with distinct listeners, each
listener receives exactly one event for this inquiry, and there is no
further recursion beyond the single OnMessage→Publish round-trip. -/
theorem inquiry_received_reaches_done (s : InquiryServiceState) (data : Inquiry)
    (hstate : data.state = InquiryState.RECEIVED) :
    mapLookup (InquiryService.OnMessage s data).1.inquiries data.inquiryId =
      some { data with state := InquiryState.DONE } ∧
    (InquiryService.OnMessage s data).2 =
      s.listeners.map (fun l => (l, { data with state := InquiryState.DONE })) ∧
    (s.listeners.Nodup →
      ∀ l ∈ s.listeners,
        ((InquiryService.OnMessage s data).2.countP (fun e => e.1 == l)) = 1) := by
  rw [onMessage_received s data hstate]
  rw [onMessage_quoted _ _ rfl]
  refine ⟨?_, rfl, ?_⟩
  · simp [mapLookup_cons]
  · intro hnd l hl
    have hcount : (s.listeners.map
        (fun x => (x, { data with state := InquiryState.DONE }))).countP
          (fun e => e.1 == l) = s.listeners.countP (fun x => x == l) := by
      rw [List.countP_map]
      rfl
    rw [hcount]
    have : s.listeners.countP (fun x => x == l) = s.listeners.count l := by
      simp [List.count]
    rw [this]
    exact List.count_eq_one_of_mem hnd hl

/-- Sample RECEIVED inquiry I1 for the C3 witness. -/
def sampleInquiry : Inquiry :=
  ⟨"I1", GetBond ("912828M80"), Side.BUY, 1000000, 100, InquiryState.RECEIVED⟩

/-- Witness for claim C3: ingesting the RECEIVED inquiry I1 into a service
with one listener stores it as DONE. -/
theorem inquiry_received_reaches_done_witness :
    mapLookup (InquiryService.OnMessage ⟨[], [7]⟩ sampleInquiry).1.inquiries ("I1") =
      some { sampleInquiry with state := InquiryState.DONE } :=
  (inquiry_received_reaches_done ⟨[], [7]⟩ sampleInquiry rfl).1

/-- Claim C7: for an inquiry id already stored, SendQuote replaces the
stored inquiry's price by the given price (through the SetPrice operation)
and dispatches ProcessAdd with that updated inquiry to every registered
listener. -/
theorem sendQuote_updates_price_and_dispatches (s : InquiryServiceState)
    (inquiryId : String) (price : ℚ) (inq : Inquiry)
    (h : mapLookup s.inquiries inquiryId = some inq) :
    mapLookup (InquiryService.SendQuote s inquiryId price).1.inquiries inquiryId =
      some { inq with price := price } ∧
    (InquiryService.SendQuote s inquiryId price).2 =
      s.listeners.map (fun l => (l, { inq with price := price })) := by
  unfold InquiryService.SendQuote
  rw [h]
  exact ⟨by simp [mapLookup_cons, Inquiry.SetPrice], rfl⟩

/-- Witness for claim C7: updating the stored quoted price of I1 to
100 + 8/256 stores that price and dispatches it to the listener. -/
theorem sendQuote_updates_price_and_dispatches_witness :
    mapLookup (InquiryService.SendQuote ⟨[("I1", sampleInquiry)], [3]⟩ ("I1")
      (100 + 8 / 256)).1.inquiries ("I1") =
      some { sampleInquiry with price := 100 + 8 / 256 } :=
  (sendQuote_updates_price_and_dispatches ⟨[("I1", sampleInquiry)], [3]⟩ ("I1")
    (100 + 8 / 256) sampleInquiry (by simp [mapLookup])).1

/-- Keys of an aggregation table. -/
def tkeys (t : List (ℚ × ℤ)) : List ℚ := t.map Prod.fst

/-- First-match value of a price in a table, 0 when absent. -/
def tval : List (ℚ × ℤ) → ℚ → ℤ
  | [], _ => 0
  | e :: rest, p => if e.1 = p then e.2 else tval rest p

/-- Total quantity of the orders of a list at a given price. -/
def priceSum (orders : List Order) (p : ℚ) : ℤ :=
  ((orders.filter (fun o => decide (o.price = p))).map Order.quantity).sum

/-- Total quantity of the orders of a list at a given side and price. -/
def sumQtyAt (orders : List Order) (sd : PricingSide) (p : ℚ) : ℤ :=
  ((orders.filter (fun o => decide (o.side = sd ∧ o.price = p))).map Order.quantity).sum

theorem tkeys_tableAdd (t : List (ℚ × ℤ)) (p : ℚ) (q : ℤ) :
    tkeys (tableAdd t p q) = if p ∈ tkeys t then tkeys t else tkeys t ++ [p] := by
  induction t with
  | nil => simp [tableAdd, tkeys]
  | cons e rest ih =>
      by_cases he : e.1 = p
      · simp [tableAdd, he, tkeys]
      · simp only [tableAdd, if_neg he, tkeys, List.map_cons] at ih ⊢
        rw [ih]
        by_cases hm : p ∈ rest.map Prod.fst
        · simp [hm, he, Ne.symm he]
        · simp [hm, he, Ne.symm he]

theorem tkeys_tableAdd_nodup (t : List (ℚ × ℤ)) (p : ℚ) (q : ℤ)
    (h : (tkeys t).Nodup) : (tkeys (tableAdd t p q)).Nodup := by
  rw [tkeys_tableAdd]
  by_cases hm : p ∈ tkeys t
  · simpa [hm]
  · rw [if_neg hm]
    refine List.Nodup.append h (List.nodup_singleton p) ?_
    intro a ha hb
    simp only [List.mem_singleton] at hb
    exact hm (hb ▸ ha)

theorem tval_tableAdd (t : List (ℚ × ℤ)) (p : ℚ) (q : ℤ) (x : ℚ) :
    tval (tableAdd t p q) x = if x = p then tval t x + q else tval t x := by
  induction t with
  | nil =>
      by_cases hx : x = p
      · subst hx
        simp [tableAdd, tval]
      · have hpx : ¬ p = x := fun h2 => hx h2.symm
        simp [tableAdd, tval, hx, hpx]
  | cons e rest ih =>
      by_cases he : e.1 = p
      · simp only [tableAdd, if_pos he]
        by_cases hx : x = p
        · subst hx
          simp [tval, he]
        · have hex : ¬ e.1 = x := fun h2 => hx (h2.symm.trans he)
          simp [tval, hex, hx]
      · simp only [tableAdd, if_neg he, tval]
        by_cases hex : e.1 = x
        · have hx : ¬ x = p := fun h2 => he (hex.trans h2)
          simp [hex, hx]
        · simp [hex, ih]

theorem tableAdd_fresh (t : List (ℚ × ℤ)) (p : ℚ) (q : ℤ) (h : p ∉ tkeys t) :
    tableAdd t p q = t ++ [(p, q)] := by
  induction t with
  | nil => rfl
  | cons e rest ih =>
      simp only [tkeys, List.map_cons, List.mem_cons, not_or] at h
      have hne : ¬ e.1 = p := by
        intro he2
        exact h.1 he2.symm
      simp only [tableAdd, if_neg hne, List.cons_append]
      rw [ih h.2]

theorem tkeys_buildTable_fold (orders : List Order) :
    ∀ (t : List (ℚ × ℤ)), (tkeys t).Nodup →
      (tkeys (orders.foldl (fun t2 o => tableAdd t2 o.price o.quantity) t)).Nodup := by
  induction orders with
  | nil => intro t h; exact h
  | cons o rest ih =>
      intro t h
      exact ih _ (tkeys_tableAdd_nodup t o.price o.quantity h)

theorem tval_buildTable_fold (orders : List Order) :
    ∀ (t : List (ℚ × ℤ)) (x : ℚ),
      tval (orders.foldl (fun t2 o => tableAdd t2 o.price o.quantity) t) x =
        tval t x + priceSum orders x := by
  induction orders with
  | nil => intro t x; simp [priceSum]
  | cons o rest ih =>
      intro t x
      simp only [List.foldl_cons]
      rw [ih]
      rw [tval_tableAdd]
      by_cases hx : x = o.price
      · have : (decide (o.price = x)) = true := by simp [hx.symm]
        simp [priceSum, List.filter_cons, this, hx]
        omega
      · have : (decide (o.price = x)) = false := by
          simp
          exact fun h => hx h.symm
        simp [priceSum, List.filter_cons, this, hx]

theorem tval_of_mem (t : List (ℚ × ℤ)) (p : ℚ) (q : ℤ)
    (hnd : (tkeys t).Nodup) (hm : (p, q) ∈ t) : tval t p = q := by
  induction t with
  | nil => cases hm
  | cons e rest ih =>
      simp only [tkeys, List.map_cons, List.nodup_cons] at hnd
      rcases List.mem_cons.mp hm with he | hr
      · rw [← he]
        simp [tval]
      · have hne : ¬ e.1 = p := by
          intro h
          exact hnd.1 (h ▸ (List.mem_map.mpr ⟨(p, q), hr, rfl⟩))
        simp only [tval, if_neg hne]
        exact ih hnd.2 hr

theorem buildTable_nodup (orders : List Order) : (tkeys (buildTable orders)).Nodup :=
  tkeys_buildTable_fold orders [] (by simp [tkeys])

theorem buildTable_entry_sum (orders : List Order) (p : ℚ) (q : ℤ)
    (hm : (p, q) ∈ buildTable orders) : q = priceSum orders p := by
  have h1 : tval (buildTable orders) p = q := tval_of_mem _ p q (buildTable_nodup orders) hm
  have h2 := tval_buildTable_fold orders [] p
  rw [buildTable] at h1
  rw [h1] at h2
  simpa [tval] using h2

/-- With side-homogeneous input (as the market data connector builds),
the per-price sum over one stack equals the per-(side, price) sum over
the whole book. -/
theorem priceSum_eq_sumQtyAt (bids offers : List Order) (p : ℚ)
    (hb : ∀ o ∈ bids, o.side = PricingSide.BID)
    (ho : ∀ o ∈ offers, o.side = PricingSide.OFFER) :
    priceSum bids p = sumQtyAt (bids ++ offers) PricingSide.BID p ∧
    priceSum offers p = sumQtyAt (bids ++ offers) PricingSide.OFFER p := by
  constructor
  · rw [sumQtyAt, List.filter_append]
    have h1 : offers.filter (fun o => decide (o.side = PricingSide.BID ∧ o.price = p)) = [] := by
      rw [List.filter_eq_nil_iff]
      intro o hm
      simp [ho o hm]
    have h2 : bids.filter (fun o => decide (o.side = PricingSide.BID ∧ o.price = p)) =
        bids.filter (fun o => decide (o.price = p)) := by
      apply List.filter_congr
      intro o hm
      simp [hb o hm]
    rw [h1, h2]
    simp [priceSum]
  · rw [sumQtyAt, List.filter_append]
    have h1 : bids.filter (fun o => decide (o.side = PricingSide.OFFER ∧ o.price = p)) = [] := by
      rw [List.filter_eq_nil_iff]
      intro o hm
      simp [hb o hm]
    have h2 : offers.filter (fun o => decide (o.side = PricingSide.OFFER ∧ o.price = p)) =
        offers.filter (fun o => decide (o.price = p)) := by
      apply List.filter_congr
      intro o hm
      simp [ho o hm]
    rw [h1, h2]
    simp [priceSum]

/-- Claim C4: aggregating an order book whose stacks are side-homogeneous
(which is how the market data connector builds every stored book, see
subscribe_books_side_homogeneous) yields a book with no two orders of the
same side at the same price, in which every output order carries its
stack's side and a quantity equal to the sum of the quantities of all
source orders at that (side, price). -/
theorem aggregateDepth_collapses_duplicates (book : OrderBook)
    (hb : ∀ o ∈ book.bidStack, o.side = PricingSide.BID)
    (ho : ∀ o ∈ book.offerStack, o.side = PricingSide.OFFER) :
    (((MarketDataService.AggregateDepth book).bidStack.map Order.price).Nodup ∧
      ((MarketDataService.AggregateDepth book).offerStack.map Order.price).Nodup) ∧
    (∀ o ∈ (MarketDataService.AggregateDepth book).bidStack,
       o.side = PricingSide.BID ∧
       o.quantity = sumQtyAt (book.bidStack ++ book.offerStack) PricingSide.BID o.price) ∧
    (∀ o ∈ (MarketDataService.AggregateDepth book).offerStack,
       o.side = PricingSide.OFFER ∧
       o.quantity = sumQtyAt (book.bidStack ++ book.offerStack) PricingSide.OFFER o.price) := by
  refine ⟨⟨?_, ?_⟩, ?_, ?_⟩
  · have h := buildTable_nodup book.bidStack
    simpa [MarketDataService.AggregateDepth, tkeys, List.map_map, Function.comp] using h
  · have h := buildTable_nodup book.offerStack
    simpa [MarketDataService.AggregateDepth, tkeys, List.map_map, Function.comp] using h
  · intro o hm
    simp only [MarketDataService.AggregateDepth, List.mem_map] at hm
    obtain ⟨e, he, rfl⟩ := hm
    refine ⟨rfl, ?_⟩
    have h1 : e.2 = priceSum book.bidStack e.1 :=
      buildTable_entry_sum book.bidStack e.1 e.2 (by
        cases e
        exact he)
    rw [h1]
    exact (priceSum_eq_sumQtyAt book.bidStack book.offerStack e.1 hb ho).1
  · intro o hm
    simp only [MarketDataService.AggregateDepth, List.mem_map] at hm
    obtain ⟨e, he, rfl⟩ := hm
    refine ⟨rfl, ?_⟩
    have h1 : e.2 = priceSum book.offerStack e.1 :=
      buildTable_entry_sum book.offerStack e.1 e.2 (by
        cases e
        exact he)
    rw [h1]
    exact (priceSum_eq_sumQtyAt book.bidStack book.offerStack e.1 hb ho).2

/-- Sample order book with duplicate bid prices (the spec's aggregation
scenario), used by the C4 witness. -/
def sampleDupBook : OrderBook :=
  ⟨Bond.defaultBond,
   [⟨100, 10, PricingSide.BID⟩, ⟨100, 15, PricingSide.BID⟩, ⟨199 / 2, 20, PricingSide.BID⟩],
   [⟨101, 7, PricingSide.OFFER⟩]⟩

/-- Witness for claim C4: aggregating the sample book leaves no duplicate
bid prices. -/
theorem aggregateDepth_collapses_duplicates_witness :
    ((MarketDataService.AggregateDepth sampleDupBook).bidStack.map Order.price).Nodup :=
  (aggregateDepth_collapses_duplicates sampleDupBook (by decide) (by decide)).1.1

/-- Case characterization of one subscribe step: the incoming order joins
the stack matching its side; on a full group, a book of the accumulated
stacks is appended to the deliveries and the accumulator resets. -/
theorem subscribeStep_cases (D : ℕ) (st : MDSubscribeState) (row : MarketDataRow) :
    MarketDataConnector.subscribeStep D st row =
      (if st.count + 1 = D * 2 then
        MDSubscribeState.mk 0 [] []
          (st.books ++
            [⟨GetBond row.productId,
              (if row.sideStr = "BID" then
                st.bidStack ++ [⟨ConvertPriceFromString row.priceStr, row.quantity,
                  PricingSide.BID⟩]
              else st.bidStack),
              (if row.sideStr = "BID" then st.offerStack
              else st.offerStack ++ [⟨ConvertPriceFromString row.priceStr, row.quantity,
                PricingSide.OFFER⟩])⟩])
      else
        MDSubscribeState.mk (st.count + 1)
          (if row.sideStr = "BID" then
            st.bidStack ++ [⟨ConvertPriceFromString row.priceStr, row.quantity,
              PricingSide.BID⟩]
          else st.bidStack)
          (if row.sideStr = "BID" then st.offerStack
          else st.offerStack ++ [⟨ConvertPriceFromString row.priceStr, row.quantity,
            PricingSide.OFFER⟩])
          st.books) := by
  by_cases hs : row.sideStr = "BID" <;>
    by_cases hc : st.count + 1 = D * 2 <;>
      simp [MarketDataConnector.subscribeStep, hs, hc]

/-- Supporting invariant for the side hypotheses of claim C4: every order
book the market data connector delivers has only BID orders in its bid
stack and only OFFER orders in its offer stack. -/
theorem subscribe_books_side_homogeneous (D : ℕ) (rows : List MarketDataRow) :
    ∀ bk ∈ (MarketDataConnector.Subscribe D rows).books,
      (∀ o ∈ bk.bidStack, o.side = PricingSide.BID) ∧
      (∀ o ∈ bk.offerStack, o.side = PricingSide.OFFER) := by
  have key : ∀ (rs : List MarketDataRow) (st : MDSubscribeState),
      (∀ o ∈ st.bidStack, o.side = PricingSide.BID) →
      (∀ o ∈ st.offerStack, o.side = PricingSide.OFFER) →
      (∀ bk ∈ st.books,
        (∀ o ∈ bk.bidStack, o.side = PricingSide.BID) ∧
        (∀ o ∈ bk.offerStack, o.side = PricingSide.OFFER)) →
      ∀ bk ∈ (rs.foldl (MarketDataConnector.subscribeStep D) st).books,
        (∀ o ∈ bk.bidStack, o.side = PricingSide.BID) ∧
        (∀ o ∈ bk.offerStack, o.side = PricingSide.OFFER) := by
    intro rs
    induction rs with
    | nil => intro st _ _ hbooks; exact hbooks
    | cons row rest ih =>
        intro st hbid hoffer hbooks
        simp only [List.foldl_cons]
        rw [subscribeStep_cases]
        have hbid2 : ∀ o ∈ (if row.sideStr = "BID" then
            st.bidStack ++ [Order.mk (ConvertPriceFromString row.priceStr) row.quantity
              PricingSide.BID]
            else st.bidStack), o.side = PricingSide.BID := by
          by_cases hs : row.sideStr = "BID" <;> simp only [hs, if_pos, if_neg, if_true, if_false]
          · intro o hm
            rcases List.mem_append.mp hm with hm | hm
            · exact hbid o hm
            · simp only [List.mem_singleton] at hm
              rw [hm]
          · exact hbid
        have hoffer2 : ∀ o ∈ (if row.sideStr = "BID" then st.offerStack
            else st.offerStack ++ [Order.mk (ConvertPriceFromString row.priceStr) row.quantity
              PricingSide.OFFER]), o.side = PricingSide.OFFER := by
          by_cases hs : row.sideStr = "BID" <;> simp only [hs, if_pos, if_neg, if_true, if_false]
          · exact hoffer
          · intro o hm
            rcases List.mem_append.mp hm with hm | hm
            · exact hoffer o hm
            · simp only [List.mem_singleton] at hm
              rw [hm]
        by_cases hc : st.count + 1 = D * 2
        · rw [if_pos hc]
          apply ih
          · intro o hm
            cases hm
          · intro o hm
            cases hm
          · intro bk hm
            rcases List.mem_append.mp hm with hm | hm
            · exact hbooks bk hm
            · simp only [List.mem_singleton] at hm
              rw [hm]
              exact ⟨hbid2, hoffer2⟩
        · rw [if_neg hc]
          exact ih _ hbid2 hoffer2 hbooks
  exact key rows ⟨0, [], [], []⟩ (by simp) (by simp) (by simp)

/-- Folding the entries of a table with pairwise distinct keys back
through tableAdd reproduces the table after the accumulator. -/
theorem foldl_tableAdd_of_nodup (sd : PricingSide) :
    ∀ (t t0 : List (ℚ × ℤ)), (tkeys (t0 ++ t)).Nodup →
      (t.map (fun e => Order.mk e.1 e.2 sd)).foldl
        (fun t2 o => tableAdd t2 o.price o.quantity) t0 = t0 ++ t := by
  intro t
  induction t with
  | nil => intro t0 _; simp
  | cons e rest ih =>
      intro t0 hnd
      simp only [List.map_cons, List.foldl_cons]
      have hfresh : e.1 ∉ tkeys t0 := by
        simp only [tkeys, List.map_append, List.map_cons] at hnd
        have hd := List.disjoint_of_nodup_append hnd
        intro hm
        exact hd hm (by simp)
      rw [show tableAdd t0 (Order.mk e.1 e.2 sd).price (Order.mk e.1 e.2 sd).quantity =
            t0 ++ [(e.1, e.2)] from ?_]
      · rw [ih (t0 ++ [(e.1, e.2)]) (by
          simp only [tkeys, List.map_append] at hnd ⊢
          simpa using hnd)]
        simp
      · have h2 := tableAdd_fresh t0 e.1 e.2 hfresh
        simpa using h2

/-- Rebuilding the table from an aggregated stack reproduces the table. -/
theorem buildTable_roundtrip (sd : PricingSide) (orders : List Order) :
    buildTable ((buildTable orders).map (fun e => Order.mk e.1 e.2 sd)) =
      buildTable orders := by
  have h := foldl_tableAdd_of_nodup sd (buildTable orders) []
    (by simpa [tkeys] using buildTable_nodup orders)
  simpa [buildTable] using h

/-- Aggregation is a projection: aggregating an already aggregated book
changes nothing at all in this model. -/
theorem aggregateDepth_aggregateDepth (book : OrderBook) :
    MarketDataService.AggregateDepth (MarketDataService.AggregateDepth book) =
      MarketDataService.AggregateDepth book := by
  simp only [MarketDataService.AggregateDepth]
  rw [buildTable_roundtrip, buildTable_roundtrip]

/-- Claim C5: depth aggregation is idempotent — aggregating twice yields
the same multiset of (price, quantity, side) orders on each side as
aggregating once. -/
theorem aggregateDepth_idempotent (book : OrderBook) :
    ((MarketDataService.AggregateDepth (MarketDataService.AggregateDepth book)).bidStack :
        Multiset Order) =
      ((MarketDataService.AggregateDepth book).bidStack : Multiset Order) ∧
    ((MarketDataService.AggregateDepth (MarketDataService.AggregateDepth book)).offerStack :
        Multiset Order) =
      ((MarketDataService.AggregateDepth book).offerStack : Multiset Order) := by
  rw [aggregateDepth_aggregateDepth]
  exact ⟨rfl, rfl⟩

theorem charToDigitVal_digitChar (d : ℕ) (h : d < 10) :
    charToDigitVal (Nat.digitChar d) = d := by
  interval_cases d <;> rfl

theorem digitChar_ne_dash (d : ℕ) (h : d < 10) : Nat.digitChar d ≠ '-' := by
  interval_cases d <;> decide

theorem digitChar_ne_plus (d : ℕ) (h : d < 10) : Nat.digitChar d ≠ '+' := by
  interval_cases d <;> decide

theorem natToChars_ne_dash (n : ℕ) : ∀ c ∈ natToChars n, c ≠ '-' := by
  intro c hc
  unfold natToChars at hc
  by_cases hn : n = 0
  · rw [if_pos hn] at hc
    simp only [List.mem_singleton] at hc
    rw [hc]
    decide
  · rw [if_neg hn] at hc
    rw [List.mem_reverse] at hc
    obtain ⟨d, hd, rfl⟩ := List.mem_map.mp hc
    exact digitChar_ne_dash d (Nat.digits_lt_base (by norm_num) hd)

theorem stodNat_natToChars (n : ℕ) : stodNat (natToChars n) = n := by
  by_cases hn : n = 0
  · rw [hn]
    rfl
  · unfold natToChars
    rw [if_neg hn]
    unfold stodNat
    rw [List.foldl_reverse]
    rw [List.foldr_map]
    have key : ∀ (L : List ℕ), (∀ d ∈ L, d < 10) →
        L.foldr (fun d y => y * 10 + charToDigitVal (Nat.digitChar d)) 0 =
          Nat.ofDigits 10 L := by
      intro L
      induction L with
      | nil => intro _; rfl
      | cons d rest ih =>
          intro hall
          simp only [List.foldr_cons, Nat.ofDigits_cons]
          rw [ih (fun x hx => hall x (List.mem_cons_of_mem d hx))]
          rw [charToDigitVal_digitChar d (hall d (List.mem_cons_self d rest))]
          ring
    rw [key (Nat.digits 10 n) (fun d hd => Nat.digits_lt_base (by norm_num) hd)]
    exact Nat.ofDigits_digits 10 n

theorem natToChars_single (n : ℕ) (h : n < 10) : natToChars n = [Nat.digitChar n] := by
  by_cases hn : n = 0
  · rw [hn]
    rfl
  · unfold natToChars
    rw [if_neg hn]
    rw [Nat.digits_def' (by norm_num : (1:ℕ) < 10) (Nat.pos_of_ne_zero hn)]
    rw [Nat.mod_eq_of_lt h, Nat.div_eq_of_lt h]
    simp

theorem natToChars_two (n : ℕ) (h1 : 10 ≤ n) (h2 : n < 100) :
    natToChars n = [Nat.digitChar (n / 10), Nat.digitChar (n % 10)] := by
  unfold natToChars
  rw [if_neg (by omega)]
  rw [Nat.digits_def' (by norm_num : (1:ℕ) < 10) (by omega)]
  rw [Nat.digits_def' (by norm_num : (1:ℕ) < 10) (by omega : 0 < n / 10)]
  have hz : n / 10 / 10 = 0 := by omega
  have hm : n / 10 % 10 = n / 10 := Nat.mod_eq_of_lt (by omega)
  rw [hz, hm]
  simp

theorem foldl_splitStep_count0 (cs : List Char) :
    ∀ (st : PriceSplit), (∀ c ∈ cs, c ≠ '-') → st.count = 0 →
      cs.foldl splitStep st = { st with s100 := st.s100 ++ cs } := by
  induction cs with
  | nil => intro st _ _; simp
  | cons c rest ih =>
      intro st hnc hc
      have hstep : splitStep st c = { st with s100 := st.s100 ++ [c] } := by
        unfold splitStep
        rw [if_neg (hnc c (List.mem_cons_self c rest)), if_pos hc]
      simp only [List.foldl_cons, hstep]
      rw [ih { st with s100 := st.s100 ++ [c] }
        (fun x hx => hnc x (List.mem_cons_of_mem c hx)) hc]
      simp

theorem foldl_splitStep_count3 (cs : List Char) :
    ∀ (st : PriceSplit), (∀ c ∈ cs, c ≠ '-') → st.count = 3 →
      cs.foldl splitStep st =
        { st with s8 := st.s8 ++ cs.map (fun c => if c = '+' then '4' else c) } := by
  induction cs with
  | nil => intro st _ _; simp
  | cons c rest ih =>
      intro st hnc hc
      have hstep : splitStep st c = { st with s8 := st.s8 ++ [if c = '+' then '4' else c] } := by
        unfold splitStep
        rw [if_neg (hnc c (List.mem_cons_self c rest)), if_neg (by omega),
          if_neg (by omega), if_pos hc]
      simp only [List.foldl_cons, hstep]
      rw [ih { st with s8 := st.s8 ++ [if c = '+' then '4' else c] }
        (fun x hx => hnc x (List.mem_cons_of_mem c hx)) hc]
      simp

theorem foldl_splitStep_pair (st : PriceSplit) (hc : st.count = 1)
    (x y : Char) (hx : x ≠ '-') (hy : y ≠ '-') (rest : List Char) :
    (x :: y :: rest).foldl splitStep st =
      rest.foldl splitStep { st with s32 := st.s32 ++ [x, y], count := 3 } := by
  have hstep : ∀ (st2 : PriceSplit) (c : Char), c ≠ '-' →
      (st2.count = 1 ∨ st2.count = 2) →
      splitStep st2 c = { st2 with s32 := st2.s32 ++ [c], count := st2.count + 1 } := by
    intro st2 c hnc h12
    unfold splitStep
    rw [if_neg hnc, if_neg (by omega), if_pos h12]
  simp only [List.foldl_cons]
  rw [hstep st x hx (Or.inl hc)]
  rw [hstep { st with s32 := st.s32 ++ [x], count := st.count + 1 } y hy (Or.inr (by
    show st.count + 1 = 2
    omega))]
  have h1 : (st.s32 ++ [x]) ++ [y] = st.s32 ++ [x, y] := by simp
  have h2 : st.count + 1 + 1 = 3 := by omega
  rw [h1, h2]

theorem splitStep_dash (st : PriceSplit) :
    splitStep st '-' = { st with count := st.count + 1 } := by
  unfold splitStep
  rw [if_pos rfl]

theorem intToChars_natCast (m : ℕ) : intToChars ((m : ℕ) : ℤ) = natToChars m := by
  unfold intToChars
  rw [if_neg (by omega)]
  simp

/-- The printed form of a nonnegative multiple of 1/256: whole points,
dash, two-digit 32nds, eighth digit with 4 printed as a plus sign. -/
theorem convertPriceToChars_form (n : ℕ) :
    ConvertPriceToChars ((n : ℚ) / 256) =
      natToChars (n / 256) ++ ['-'] ++
      (if n % 256 / 8 < 10 then '0' :: natToChars (n % 256 / 8)
        else natToChars (n % 256 / 8)) ++
      (if n % 256 % 8 = 4 then ['+'] else natToChars (n % 256 % 8)) := by
  have hfloor1 : ⌊(n : ℚ) / 256⌋ = ((n / 256 : ℕ) : ℤ) := by
    rw [Int.floor_eq_iff]
    constructor
    · rw [le_div_iff₀ (by norm_num : (0:ℚ) < 256)]
      have : (n / 256 : ℕ) * 256 ≤ n := by omega
      exact_mod_cast this
    · rw [div_lt_iff₀ (by norm_num : (0:ℚ) < 256)]
      have : n < (n / 256 + 1) * 256 := by omega
      push_cast
      exact_mod_cast this
  have hsub : ((n : ℚ) / 256 - (((n / 256 : ℕ) : ℤ) : ℚ)) * 256 = ((n % 256 : ℕ) : ℚ) := by
    have hn : (n : ℚ) = 256 * (((n / 256 : ℕ) : ℤ) : ℚ) + ((n % 256 : ℕ) : ℚ) := by
      have h0 : n = 256 * (n / 256) + n % 256 := by omega
      calc (n : ℚ) = ((256 * (n / 256) + n % 256 : ℕ) : ℚ) := by rw [← h0]
        _ = 256 * (((n / 256 : ℕ) : ℤ) : ℚ) + ((n % 256 : ℕ) : ℚ) := by
            rw [Int.cast_natCast]
            push_cast
            ring
    rw [sub_mul, div_mul_cancel₀ _ (by norm_num : (256 : ℚ) ≠ 0), hn]
    ring
  have hfloor3 : ⌊(((n % 256 : ℕ) : ℤ) : ℚ) / 8⌋ = ((n % 256 / 8 : ℕ) : ℤ) := by
    rw [Int.floor_eq_iff]
    constructor
    · rw [le_div_iff₀ (by norm_num : (0:ℚ) < 8)]
      have : (n % 256 / 8 : ℕ) * 8 ≤ n % 256 := by omega
      exact_mod_cast this
    · rw [div_lt_iff₀ (by norm_num : (0:ℚ) < 8)]
      have : n % 256 < (n % 256 / 8 + 1) * 8 := by omega
      push_cast
      exact_mod_cast this
  have htmod : Int.tmod (((n % 256 : ℕ) : ℤ)) 8 = ((n % 256 % 8 : ℕ) : ℤ) := by
    exact_mod_cast (Int.ofNat_tmod (n % 256) 8).symm
  simp only [ConvertPriceToChars]
  rw [hfloor1]
  rw [hsub, Int.floor_natCast]
  rw [hfloor3, htmod]
  rw [intToChars_natCast, intToChars_natCast, intToChars_natCast]
  norm_cast

/-- The parsed value of a printed AAA-BBC form: whole points plus 32nds
plus eighths. -/
theorem convertPriceFromChars_form (a b c : ℕ) (hb : b < 32) (hc8 : c < 8) :
    ConvertPriceFromChars
      (natToChars a ++ ['-'] ++
        (if b < 10 then '0' :: natToChars b else natToChars b) ++
        (if c = 4 then ['+'] else natToChars c)) =
      (a : ℚ) + (b : ℚ) * 1 / 32 + (c : ℚ) * 1 / 256 := by
  have hsplit : (natToChars a ++ ['-'] ++
      (if b < 10 then '0' :: natToChars b else natToChars b) ++
      (if c = 4 then ['+'] else natToChars c)).foldl splitStep ⟨0, [], [], []⟩ =
      ⟨3, natToChars a,
        (if b < 10 then '0' :: natToChars b else natToChars b),
        (if c = 4 then ['4'] else natToChars c)⟩ := by
    rw [List.foldl_append, List.foldl_append, List.foldl_append]
    rw [foldl_splitStep_count0 (natToChars a) ⟨0, [], [], []⟩ (natToChars_ne_dash a) rfl]
    simp only [List.foldl_cons, List.foldl_nil]
    rw [splitStep_dash]
    by_cases h10 : b < 10
    · rw [if_pos h10]
      have hbchars : natToChars b = [Nat.digitChar b] := natToChars_single b h10
      rw [hbchars]
      rw [foldl_splitStep_pair _ rfl '0' (Nat.digitChar b) (by decide)
        (digitChar_ne_dash b h10) []]
      simp only [List.foldl_nil]
      by_cases hc4 : c = 4
      · rw [if_pos hc4]
        rw [foldl_splitStep_count3 ['+'] _ (by decide) rfl]
        simp [hc4]
      · rw [if_neg hc4]
        have hcchars : natToChars c = [Nat.digitChar c] := natToChars_single c (by omega)
        rw [hcchars]
        rw [foldl_splitStep_count3 [Nat.digitChar c] _
          (by
            intro x hx
            simp only [List.mem_singleton] at hx
            rw [hx]
            exact digitChar_ne_dash c (by omega)) rfl]
        have : (if Nat.digitChar c = '+' then '4' else Nat.digitChar c) = Nat.digitChar c := by
          rw [if_neg (digitChar_ne_plus c (by omega))]
        simp [this, hc4]
    · rw [if_neg h10]
      have hbchars : natToChars b = [Nat.digitChar (b / 10), Nat.digitChar (b % 10)] :=
        natToChars_two b (by omega) (by omega)
      rw [hbchars]
      rw [foldl_splitStep_pair _ rfl (Nat.digitChar (b / 10)) (Nat.digitChar (b % 10))
        (digitChar_ne_dash (b / 10) (by omega)) (digitChar_ne_dash (b % 10) (by omega)) []]
      simp only [List.foldl_nil]
      by_cases hc4 : c = 4
      · rw [if_pos hc4]
        rw [foldl_splitStep_count3 ['+'] _ (by decide) rfl]
        simp [hc4]
      · rw [if_neg hc4]
        have hcchars : natToChars c = [Nat.digitChar c] := natToChars_single c (by omega)
        rw [hcchars]
        rw [foldl_splitStep_count3 [Nat.digitChar c] _
          (by
            intro x hx
            simp only [List.mem_singleton] at hx
            rw [hx]
            exact digitChar_ne_dash c (by omega)) rfl]
        have : (if Nat.digitChar c = '+' then '4' else Nat.digitChar c) = Nat.digitChar c := by
          rw [if_neg (digitChar_ne_plus c (by omega))]
        simp [this, hc4]
  unfold ConvertPriceFromChars
  rw [hsplit]
  dsimp only
  have h100 : stodNat (natToChars a) = a := stodNat_natToChars a
  have h32 : stodNat (if b < 10 then '0' :: natToChars b else natToChars b) = b := by
    by_cases h10 : b < 10
    · rw [if_pos h10, natToChars_single b h10]
      show (0 * 10 + charToDigitVal '0') * 10 + charToDigitVal (Nat.digitChar b) = b
      rw [charToDigitVal_digitChar b h10, (by decide : charToDigitVal '0' = 0)]
      omega
    · rw [if_neg h10, natToChars_two b (by omega) (by omega)]
      show (0 * 10 + charToDigitVal (Nat.digitChar (b / 10))) * 10 +
        charToDigitVal (Nat.digitChar (b % 10)) = b
      rw [charToDigitVal_digitChar (b / 10) (by omega),
        charToDigitVal_digitChar (b % 10) (by omega)]
      omega
  have h8 : stodNat (if c = 4 then ['4'] else natToChars c) = c := by
    by_cases hc4 : c = 4
    · rw [if_pos hc4, hc4]
      decide
    · rw [if_neg hc4, natToChars_single c (by omega)]
      show 0 * 10 + charToDigitVal (Nat.digitChar c) = c
      rw [charToDigitVal_digitChar c (by omega)]
      omega
  rw [h100, h32, h8]

/-- Claim C2: converting any nonnegative integer multiple of 1/256 to the
fractional AAA-BBC string form and parsing it back through the two
ConvertPrice overloads restores exactly the original price, with the plus
sign standing for the eighth digit 4. -/
theorem convertPrice_roundTrip (n : ℕ) :
    ConvertPriceFromChars (ConvertPriceToChars ((n : ℚ) / 256)) = (n : ℚ) / 256 := by
  rw [convertPriceToChars_form n]
  rw [convertPriceFromChars_form (n / 256) (n % 256 / 8) (n % 256 % 8) (by omega) (by omega)]
  have hn : (n : ℚ) = 256 * ((n / 256 : ℕ) : ℚ) + 8 * ((n % 256 / 8 : ℕ) : ℚ) +
      ((n % 256 % 8 : ℕ) : ℚ) := by
    exact_mod_cast (by omega : n = 256 * (n / 256) + 8 * (n % 256 / 8) + n % 256 % 8)
  rw [hn]
  ring

end MTH9815
